import Mathlib

/-!
# Ledger Engine: shallow embedding of `accounting_app.py`

This file embeds the core of the double-entry bookkeeping application
(`src/accounting_app/accounting_app.py`) in Lean 4 and proves the spec's
claims about it.

Modelling choices:
* Monetary amounts (Python `float`) are modelled as rationals `ℚ`; the
  claims under verification are about the algorithmic structure (double-entry
  pairing, aggregation, thresholds), not float rounding.
* The database (`rx.session`, the `JournalEntry` table) is modelled as a
  `List JournalEntry` in insertion order; `session.add` appends, SQL
  `ORDER BY id DESC` is `List.reverse`, SQL `ORDER BY date DESC` is a stable
  merge sort on the date key over the insertion-ordered scan, and
  `SELECT DISTINCT account` keeps the first occurrence of each account.
* `datetime.now().strftime(...)` is an effect: the current date string is
  passed to `add_transaction` as an explicit argument.
-/

/-- The General Ledger Table (`class JournalEntry(rx.Model)`). -/
structure JournalEntry where
  date : String
  description : String
  account : String
  category : String
  debit : ℚ
  credit : ℚ
deriving DecidableEq, Repr

/-- Helper to store calculated rows for the UI (`class TrialBalanceRow`).
The `formatted_debit`/`formatted_credit` fields of the source are
display-only strings derived deterministically from the two balances by
Python number formatting; they are not part of any claim and are omitted. -/
structure TrialBalanceRow where
  account : String
  debit_balance : ℚ
  credit_balance : ℚ
deriving DecidableEq, Repr

/-- Numeric value of a run of decimal digit characters. -/
def digitsToNat (ds : List Char) : ℕ :=
  ds.foldl (fun n c => 10 * n + (c.toNat - 48)) 0

/-- Models Python `float(s)` on plain decimal literals: an optional sign,
then digit runs around an optional single dot, with at least one digit in
total; anything else raises `ValueError`, modelled as `none`. (Exponents,
`inf`/`nan`, underscores and surrounding whitespace, which Python's `float`
also accepts, do not occur in any claim and are out of scope.) -/
def parseAmount (s : String) : Option ℚ :=
  let cs := s.toList
  let neg : Bool := cs.head? == some '-'
  let signed : Bool := neg || (cs.head? == some '+')
  let cs₁ := if signed then cs.tail else cs
  let sign : ℚ := if neg then -1 else 1
  let ip := cs₁.takeWhile Char.isDigit
  let cs₂ := cs₁.dropWhile Char.isDigit
  if cs₂ = [] then
    if ip = [] then none else some (sign * digitsToNat ip)
  else if cs₂.head? == some '.' then
    let rest := cs₂.tail
    let fp := rest.takeWhile Char.isDigit
    let cs₃ := rest.dropWhile Char.isDigit
    if cs₃ = [] ∧ (ip ≠ [] ∨ fp ≠ []) then
      some (sign * ((digitsToNat ip : ℚ) + (digitsToNat fp : ℚ) / (10 : ℚ) ^ fp.length))
    else none
  else none

/-- The two posting error kinds of §7 of the spec, corresponding to the
two alert branches of `add_transaction`. -/
inductive PostError where
  | invalidAmount
  | nonPositiveAmount
deriving DecidableEq, Repr

/-- The app state (`class AccountingState`): form input variables plus the
fetched entries. -/
structure AccountingState where
  description : String := ""
  amount : String := "0"
  debit_account : String := "Cash"
  credit_account : String := "Sales Revenue"
  entries : List JournalEntry := []
deriving DecidableEq, Repr

/-- Result of one `add_transaction` call: the updated session state, the
updated database contents, and the error surfaced by `rx.window_alert`
(if any). -/
structure PostResult where
  state : AccountingState
  store : List JournalEntry
  error : Option PostError
deriving DecidableEq, Repr

/-- `AccountingState.load_entries`: fetch all entries ordered by
`id DESC`, i.e. reverse insertion order. -/
def load_entries (store : List JournalEntry) : List JournalEntry :=
  store.reverse

/-- `AccountingState.add_transaction`: parse the amount, reject
non-positive amounts, otherwise append the debit leg and the credit leg
to the database, reset the form and reload the entries. -/
def add_transaction (st : AccountingState) (store : List JournalEntry)
    (current_date : String) : PostResult :=
  match parseAmount st.amount with
  | none => ⟨st, store, some PostError.invalidAmount⟩
  | some amt =>
    if amt ≤ 0 then
      ⟨st, store, some PostError.nonPositiveAmount⟩
    else
      let debit_entry : JournalEntry :=
        ⟨current_date, st.description, st.debit_account, "Debit", amt, 0⟩
      let credit_entry : JournalEntry :=
        ⟨current_date, st.description, st.credit_account, "Credit", 0, amt⟩
      let store' := store ++ [debit_entry, credit_entry]
      ⟨{ st with description := "", amount := "0", entries := load_entries store' },
        store', none⟩

/-- One user transaction as submitted through the form: the four form
fields together with the timestamp the poster would stamp on both legs. -/
structure Posting where
  description : String
  amount : String
  debit_account : String
  credit_account : String
  date : String
deriving DecidableEq, Repr

/-- A posting is valid when its amount parses and is positive — exactly
the condition under which `add_transaction` writes rows. -/
def validPosting (p : Posting) : Bool :=
  match parseAmount p.amount with
  | none => false
  | some amt => decide (0 < amt)

/-- Run one posting against the store: fill the form fields and call
`add_transaction`, keeping the resulting database contents. -/
def postOne (store : List JournalEntry) (p : Posting) : List JournalEntry :=
  (add_transaction
    { description := p.description, amount := p.amount,
      debit_account := p.debit_account, credit_account := p.credit_account,
      entries := [] }
    store p.date).store

/-- Run a sequence of postings, in order, against an initial store. -/
def runPosts (store : List JournalEntry) (ps : List Posting) : List JournalEntry :=
  ps.foldl postOne store

/-- The boolean ordering used for `ORDER BY JournalEntry.date DESC`:
later dates first. The database sorter is stable over the scan order
(ascending `id`, i.e. insertion order). -/
def dateDescLE (a b : JournalEntry) : Bool :=
  b.date ≤ a.date

/-- State for the Ledger Page (`class LedgerState`). -/
structure LedgerState where
  selected_account : String := "Cash"
  ledger_entries : List JournalEntry := []
  available_accounts : List String := []
deriving DecidableEq, Repr

/-- `LedgerState.get_ledger_entries`: fetch transactions only for the
selected account, ordered by date descending (stable sort over the
insertion-ordered table scan). -/
def get_ledger_entries (selected_account : String)
    (store : List JournalEntry) : List JournalEntry :=
  (store.filter (fun e => e.account == selected_account)).mergeSort dateDescLE

/-- `SELECT JournalEntry.account ... DISTINCT`: the distinct account
names, each kept at its first occurrence in the table. -/
def distinctAccounts (store : List JournalEntry) : List String :=
  (store.map (fun e => e.account)).foldl
    (fun acc a => if a ∈ acc then acc else acc ++ [a]) []

/-- `LedgerState.get_accounts`: refresh the distinct account list, reset
the selection to the first account when the current one is absent, then
reload the ledger entries for the (possibly new) selection. -/
def get_accounts (st : LedgerState) (store : List JournalEntry) : LedgerState :=
  let available := distinctAccounts store
  let sel :=
    match available with
    | [] => st.selected_account
    | a :: _ => if st.selected_account ∈ available then st.selected_account else a
  { selected_account := sel,
    available_accounts := available,
    ledger_entries := get_ledger_entries sel store }

/-- `LedgerState.account_balance`: net balance (debit − credit) of the
currently loaded ledger entries. -/
def account_balance (ledger_entries : List JournalEntry) : ℚ :=
  (ledger_entries.map (fun e => e.debit)).sum
    - (ledger_entries.map (fun e => e.credit)).sum

/-- Step 2 of `calculate_trial_balance`: fold all entries into the
`account_map` dictionary (`account_map[entry.account] += debit - credit`),
a Python dict, hence an association list in first-seen key order. -/
def addToMap : List (String × ℚ) → String → ℚ → List (String × ℚ)
  | [], a, v => [(a, v)]
  | (k, x) :: rest, a, v =>
    if k = a then (k, x + v) :: rest else (k, x) :: addToMap rest a v

/-- The `account_map` built by the single pass over all entries. -/
def account_map (entries : List JournalEntry) : List (String × ℚ) :=
  entries.foldl (fun m e => addToMap m e.account (e.debit - e.credit)) []

/-- Step 3 of `calculate_trial_balance`, one loop iteration: skip nets
below the 0.01 threshold, otherwise emit a row and add it into the
running totals. -/
def tbStep (acc : List TrialBalanceRow × ℚ × ℚ) (p : String × ℚ) :
    List TrialBalanceRow × ℚ × ℚ :=
  if |p.2| < 1/100 then acc
  else
    let dr : ℚ := if p.2 > 0 then p.2 else 0
    let cr : ℚ := if p.2 < 0 then |p.2| else 0
    (acc.1 ++ [⟨p.1, dr, cr⟩], acc.2.1 + dr, acc.2.2 + cr)

/-- `TrialBalanceState.calculate_trial_balance` as a function of the
database contents: the emitted rows, `total_dr` and `total_cr`. -/
def calculate_trial_balance (entries : List JournalEntry) :
    List TrialBalanceRow × ℚ × ℚ :=
  (account_map entries).foldl tbStep ([], 0, 0)

/-- `TrialBalanceState.is_balanced`: the difference of the totals is
negligible. -/
def is_balanced (total_dr total_cr : ℚ) : Bool :=
  |total_dr - total_cr| < 1/100

/-- State for the Trial Balance page (`class TrialBalanceState`). -/
structure TrialBalanceState where
  rows : List TrialBalanceRow := []
  total_dr : ℚ := 0
  total_cr : ℚ := 0
deriving DecidableEq, Repr

/-- `calculate_trial_balance` as the event handler mutating
`TrialBalanceState`: recompute and overwrite `rows`, `total_dr`,
`total_cr` from the current database contents. -/
def calculate_trial_balance_update (st : TrialBalanceState)
    (store : List JournalEntry) : TrialBalanceState :=
  let res := calculate_trial_balance store
  { st with rows := res.1, total_dr := res.2.1, total_cr := res.2.2 }

/-- Net amount (debit − credit) contributed by one journal entry. -/
def entryNet (e : JournalEntry) : ℚ :=
  e.debit - e.credit

/-- Total net (sum of debit − credit) of a list of entries. -/
def entriesNet (l : List JournalEntry) : ℚ :=
  (l.map entryNet).sum

/-- Net balance of one account over a list of entries: sum of
(debit − credit) over exactly that account's entries. -/
def netOf (a : String) (l : List JournalEntry) : ℚ :=
  entriesNet (l.filter (fun e => e.account == a))

/-- Lookup in the `account_map` association list. -/
def lookupMap : List (String × ℚ) → String → Option ℚ
  | [], _ => none
  | (k, x) :: rest, a => if k = a then some x else lookupMap rest a

/-- The row §4.3 step 2 of the spec emits for one account's net: emitted
exactly when `abs(net) ≥ 0.01`, with the net in the debit column when
positive and its absolute value in the credit column when negative. -/
def emitRow (p : String × ℚ) : Option TrialBalanceRow :=
  if 1/100 ≤ |p.2| then
    some ⟨p.1, if 0 < p.2 then p.2 else 0, if p.2 < 0 then |p.2| else 0⟩
  else none

/-- The parsed amount of a posting (0 when the amount does not parse;
only used under a validity hypothesis). -/
def amtOf (p : Posting) : ℚ :=
  (parseAmount p.amount).getD 0

/-- The debit leg a valid posting appends. -/
def debitLeg (p : Posting) : JournalEntry :=
  ⟨p.date, p.description, p.debit_account, "Debit", amtOf p, 0⟩

/-- The credit leg a valid posting appends. -/
def creditLeg (p : Posting) : JournalEntry :=
  ⟨p.date, p.description, p.credit_account, "Credit", 0, amtOf p⟩

/-- §8 of the spec: the signed contribution of one posting to account
`a` — +amount when `a` is the debit account, −amount when `a` is the
credit account (both when it is both). -/
def postingSignedAmount (p : Posting) (a : String) : ℚ :=
  (if p.debit_account = a then amtOf p else 0)
    - (if p.credit_account = a then amtOf p else 0)

/-- §3 of the spec: row-level invariant of stored journal entries —
both amounts non-negative, each nonzero only on its own category. -/
def entryInvariant (e : JournalEntry) : Prop :=
  0 ≤ e.debit ∧ (e.debit ≠ 0 → e.category = "Debit") ∧
    0 ≤ e.credit ∧ (e.credit ≠ 0 → e.category = "Credit")

/-- Three postings of 0.005 into the same credit account: each debit
account's net (0.005) is below the suppression threshold, while the
shared credit account's net (−0.015) is not. -/
def suppressedPosts : List Posting :=
  [⟨"t1", "0.005", "Petty A", "Clearing", "2024-01-01 09:00"⟩,
   ⟨"t2", "0.005", "Petty B", "Clearing", "2024-01-01 09:01"⟩,
   ⟨"t3", "0.005", "Petty C", "Clearing", "2024-01-01 09:02"⟩]

/-- Two journal entries for the same account carrying the same date
string, inserted in this order. -/
def tieEntryFirst : JournalEntry :=
  ⟨"2024-01-01 10:00", "first", "Cash", "Debit", 5, 0⟩

/-- The later-inserted of the two equal-date entries. -/
def tieEntrySecond : JournalEntry :=
  ⟨"2024-01-01 10:00", "second", "Cash", "Debit", 5, 0⟩

theorem addToMap_snd_sum (m : List (String × ℚ)) (a : String) (v : ℚ) :
    ((addToMap m a v).map Prod.snd).sum = (m.map Prod.snd).sum + v := by
  induction m with
  | nil => simp [addToMap]
  | cons p rest ih =>
    obtain ⟨k, x⟩ := p
    by_cases h : k = a
    · simp [addToMap, h]
      ring
    · simp [addToMap, h, ih]
      ring

theorem addToMap_keys (m : List (String × ℚ)) (a : String) (v : ℚ) :
    (addToMap m a v).map Prod.fst =
      if a ∈ m.map Prod.fst then m.map Prod.fst else m.map Prod.fst ++ [a] := by
  induction m with
  | nil => simp [addToMap]
  | cons p rest ih =>
    obtain ⟨k, x⟩ := p
    by_cases h : k = a
    · simp [addToMap, h]
    · have h3 : ¬a = k := fun hh => h (hh.symm)
      by_cases h2 : a ∈ rest.map Prod.fst <;>
        simp [addToMap, h, ih, h2, List.mem_cons, h3]

theorem addToMap_keys_nodup (m : List (String × ℚ)) (a : String) (v : ℚ)
    (h : (m.map Prod.fst).Nodup) : ((addToMap m a v).map Prod.fst).Nodup := by
  rw [addToMap_keys]
  by_cases h2 : a ∈ m.map Prod.fst
  · simpa [h2] using h
  · simp [h2, List.nodup_append, h]

theorem lookupMap_addToMap (m : List (String × ℚ)) (a k : String) (v : ℚ) :
    lookupMap (addToMap m a v) k =
      if k = a then some ((lookupMap m a).getD 0 + v) else lookupMap m k := by
  induction m with
  | nil =>
    by_cases h : k = a
    · simp [addToMap, lookupMap, h]
    · have h' : ¬a = k := fun hh => h (hh.symm)
      simp [addToMap, lookupMap, h, h']
  | cons p rest ih =>
    obtain ⟨k', x⟩ := p
    by_cases h1 : k' = a
    · subst h1
      by_cases h2 : k = k'
      · simp [addToMap, lookupMap, h2]
      · have h2' : ¬k' = k := fun hh => h2 (hh.symm)
        simp [addToMap, lookupMap, h2, h2']
    · by_cases h2 : k = k'
      · subst h2
        have h1' : ¬k = a := fun hh => h1 hh
        simp [addToMap, lookupMap, h1, h1']
      · have h2' : ¬k' = k := fun hh => h2 (hh.symm)
        simp [addToMap, lookupMap, h1, h2, h2', ih]

theorem lookupMap_of_mem {m : List (String × ℚ)} (h : (m.map Prod.fst).Nodup)
    {p : String × ℚ} (hp : p ∈ m) : lookupMap m p.1 = some p.2 := by
  induction m with
  | nil => cases hp
  | cons q rest ih =>
    obtain ⟨k, x⟩ := q
    rw [List.map_cons] at h
    obtain ⟨hk, hrest⟩ := List.nodup_cons.mp h
    rcases List.mem_cons.mp hp with h1 | h1
    · subst h1
      simp [lookupMap]
    · have hne : k ≠ p.1 := by
        intro hkk
        apply hk
        rw [hkk]
        exact List.mem_map.mpr ⟨p, h1, rfl⟩
      simp [lookupMap, hne]
      exact ih hrest h1

theorem netOf_nil (a : String) : netOf a [] = 0 := by
  simp [netOf, entriesNet]

theorem netOf_cons (a : String) (e : JournalEntry) (l : List JournalEntry) :
    netOf a (e :: l) = (if e.account = a then entryNet e else 0) + netOf a l := by
  by_cases h : e.account = a <;>
    simp [netOf, entriesNet, List.filter_cons, h]

theorem netOf_append (a : String) (l₁ l₂ : List JournalEntry) :
    netOf a (l₁ ++ l₂) = netOf a l₁ + netOf a l₂ := by
  simp [netOf, entriesNet, List.filter_append]

theorem account_map_foldl_snd_sum (entries : List JournalEntry) :
    ∀ m : List (String × ℚ),
      ((entries.foldl (fun m e => addToMap m e.account (e.debit - e.credit)) m).map
          Prod.snd).sum
        = (m.map Prod.snd).sum + entriesNet entries := by
  induction entries with
  | nil =>
    intro m
    simp [entriesNet]
  | cons e rest ih =>
    intro m
    simp only [List.foldl_cons]
    rw [ih, addToMap_snd_sum]
    simp [entriesNet, entryNet]
    ring

theorem account_map_snd_sum (entries : List JournalEntry) :
    ((account_map entries).map Prod.snd).sum = entriesNet entries := by
  simpa using account_map_foldl_snd_sum entries []

theorem account_map_foldl_keys (entries : List JournalEntry) :
    ∀ m : List (String × ℚ),
      (entries.foldl (fun m e => addToMap m e.account (e.debit - e.credit)) m).map
          Prod.fst
        = (entries.map (fun e => e.account)).foldl
            (fun acc a => if a ∈ acc then acc else acc ++ [a]) (m.map Prod.fst) := by
  induction entries with
  | nil =>
    intro m
    simp
  | cons e rest ih =>
    intro m
    simp only [List.foldl_cons, List.map_cons]
    rw [ih, addToMap_keys]

theorem account_map_keys (entries : List JournalEntry) :
    (account_map entries).map Prod.fst = distinctAccounts entries := by
  simpa [distinctAccounts] using account_map_foldl_keys entries []

theorem account_map_foldl_keys_nodup (entries : List JournalEntry) :
    ∀ m : List (String × ℚ), (m.map Prod.fst).Nodup →
      ((entries.foldl (fun m e => addToMap m e.account (e.debit - e.credit)) m).map
          Prod.fst).Nodup := by
  induction entries with
  | nil =>
    intro m hm
    simpa using hm
  | cons e rest ih =>
    intro m hm
    simp only [List.foldl_cons]
    exact ih _ (addToMap_keys_nodup m e.account _ hm)

theorem account_map_keys_nodup (entries : List JournalEntry) :
    ((account_map entries).map Prod.fst).Nodup :=
  account_map_foldl_keys_nodup entries [] (by simp)

theorem account_map_foldl_lookup (entries : List JournalEntry) (a : String) :
    ∀ m : List (String × ℚ),
      ((lookupMap
          (entries.foldl (fun m e => addToMap m e.account (e.debit - e.credit)) m)
          a).getD 0)
        = (lookupMap m a).getD 0 + netOf a entries := by
  induction entries with
  | nil =>
    intro m
    simp [netOf_nil]
  | cons e rest ih =>
    intro m
    simp only [List.foldl_cons]
    rw [ih, netOf_cons, lookupMap_addToMap]
    by_cases h : e.account = a
    · subst h
      simp [entryNet]
      ring
    · have h' : ¬a = e.account := fun hh => h (hh.symm)
      simp [h, h']

theorem account_map_lookup (entries : List JournalEntry) (a : String) :
    (lookupMap (account_map entries) a).getD 0 = netOf a entries := by
  simpa [account_map, lookupMap] using account_map_foldl_lookup entries a []

theorem account_map_mem_net (entries : List JournalEntry) :
    ∀ p ∈ account_map entries, p.2 = netOf p.1 entries := by
  intro p hp
  have h1 : lookupMap (account_map entries) p.1 = some p.2 :=
    lookupMap_of_mem (account_map_keys_nodup entries) hp
  have h2 := account_map_lookup entries p.1
  rw [h1] at h2
  simpa using h2

theorem tb_foldl (m : List (String × ℚ)) :
    ∀ (rows : List TrialBalanceRow) (t_dr t_cr : ℚ),
      m.foldl tbStep (rows, t_dr, t_cr) =
        (rows ++ m.filterMap emitRow,
         t_dr + ((m.filterMap emitRow).map (fun r => r.debit_balance)).sum,
         t_cr + ((m.filterMap emitRow).map (fun r => r.credit_balance)).sum) := by
  induction m with
  | nil =>
    intro rows t_dr t_cr
    simp
  | cons p rest ih =>
    intro rows t_dr t_cr
    by_cases h : |p.2| < 1/100
    · have he : emitRow p = none := by
        unfold emitRow
        rw [if_neg (not_le.mpr h)]
      simp only [List.foldl_cons, List.filterMap_cons, he]
      rw [show tbStep (rows, t_dr, t_cr) p = (rows, t_dr, t_cr) from by
        unfold tbStep
        rw [if_pos h]]
      exact ih rows t_dr t_cr
    · have hge : 1/100 ≤ |p.2| := not_lt.mp h
      have he : emitRow p =
          some ⟨p.1, if 0 < p.2 then p.2 else 0, if p.2 < 0 then |p.2| else 0⟩ := by
        unfold emitRow
        rw [if_pos hge]
      simp only [List.foldl_cons, List.filterMap_cons, he]
      rw [show tbStep (rows, t_dr, t_cr) p =
          (rows ++ [⟨p.1, if 0 < p.2 then p.2 else 0, if p.2 < 0 then |p.2| else 0⟩],
           t_dr + (if 0 < p.2 then p.2 else 0),
           t_cr + (if p.2 < 0 then |p.2| else 0)) from by
        unfold tbStep
        rw [if_neg h]]
      rw [ih]
      simp [List.append_assoc]
      constructor <;> ring

theorem calculate_trial_balance_eq (entries : List JournalEntry) :
    calculate_trial_balance entries =
      ((account_map entries).filterMap emitRow,
       (((account_map entries).filterMap emitRow).map
         (fun r => r.debit_balance)).sum,
       (((account_map entries).filterMap emitRow).map
         (fun r => r.credit_balance)).sum) := by
  unfold calculate_trial_balance
  rw [tb_foldl]
  simp

theorem emit_dr_sub_cr {q : ℚ} (h : ¬|q| < 1/100) :
    (if 0 < q then q else 0) - (if q < 0 then |q| else 0) = q := by
  rcases lt_trichotomy q 0 with hq | hq | hq
  · rw [if_neg (by linarith), if_pos hq, abs_of_neg hq]
    ring
  · exfalso
    apply h
    rw [hq]
    norm_num
  · rw [if_pos hq, if_neg (by linarith)]
    ring

theorem tb_totals_sub (m : List (String × ℚ)) :
    ((m.filterMap emitRow).map (fun r => r.debit_balance)).sum
      - ((m.filterMap emitRow).map (fun r => r.credit_balance)).sum
      = (m.map (fun p => if |p.2| < 1/100 then 0 else p.2)).sum := by
  induction m with
  | nil => simp
  | cons p rest ih =>
    by_cases h : |p.2| < 1/100
    · have he : emitRow p = none := by
        unfold emitRow
        rw [if_neg (not_le.mpr h)]
      simp only [List.filterMap_cons, he, List.map_cons, List.sum_cons, if_pos h]
      rw [zero_add]
      exact ih
    · have hge : 1/100 ≤ |p.2| := not_lt.mp h
      have he : emitRow p =
          some ⟨p.1, if 0 < p.2 then p.2 else 0, if p.2 < 0 then |p.2| else 0⟩ := by
        unfold emitRow
        rw [if_pos hge]
      simp only [List.filterMap_cons, he, List.map_cons, List.sum_cons, if_neg h]
      have hd := emit_dr_sub_cr h
      linarith [ih, hd]

theorem postOne_of_valid {p : Posting} (h : validPosting p = true)
    (store : List JournalEntry) :
    postOne store p = store ++ [debitLeg p, creditLeg p] := by
  unfold validPosting at h
  cases hp : parseAmount p.amount with
  | none =>
    rw [hp] at h
    simp at h
  | some amt =>
    rw [hp] at h
    simp only [decide_eq_true_eq] at h
    unfold postOne add_transaction
    simp only [hp]
    rw [if_neg (not_le.mpr h)]
    simp [debitLeg, creditLeg, amtOf, hp]

theorem postOne_of_invalid {p : Posting} (h : validPosting p = false)
    (store : List JournalEntry) :
    postOne store p = store := by
  unfold validPosting at h
  cases hp : parseAmount p.amount with
  | none =>
    unfold postOne add_transaction
    simp [hp]
  | some amt =>
    rw [hp] at h
    simp only [decide_eq_false_iff_not, not_lt] at h
    unfold postOne add_transaction
    simp only [hp]
    rw [if_pos h]

theorem entriesNet_append (l₁ l₂ : List JournalEntry) :
    entriesNet (l₁ ++ l₂) = entriesNet l₁ + entriesNet l₂ := by
  simp [entriesNet]

theorem entriesNet_postOne (store : List JournalEntry) (p : Posting) :
    entriesNet (postOne store p) = entriesNet store := by
  cases hv : validPosting p
  · rw [postOne_of_invalid hv]
  · rw [postOne_of_valid hv, entriesNet_append]
    simp [entriesNet, entryNet, debitLeg, creditLeg]

theorem entriesNet_runPosts (ps : List Posting) :
    ∀ store : List JournalEntry, entriesNet (runPosts store ps) = entriesNet store := by
  induction ps with
  | nil =>
    intro store
    simp [runPosts]
  | cons p rest ih =>
    intro store
    show entriesNet (List.foldl postOne (postOne store p) rest) = entriesNet store
    rw [show List.foldl postOne (postOne store p) rest =
        runPosts (postOne store p) rest from rfl]
    rw [ih, entriesNet_postOne]

theorem netOf_legs (a : String) (p : Posting) :
    netOf a [debitLeg p, creditLeg p] = postingSignedAmount p a := by
  by_cases h1 : p.debit_account = a <;> by_cases h2 : p.credit_account = a <;>
    simp [netOf, entriesNet, entryNet, debitLeg, creditLeg, postingSignedAmount,
      List.filter_cons, h1, h2]

theorem netOf_runPosts (a : String) :
    ∀ ps : List Posting, (∀ p ∈ ps, validPosting p = true) →
      ∀ store : List JournalEntry,
        netOf a (runPosts store ps) =
          netOf a store + (ps.map (fun p => postingSignedAmount p a)).sum := by
  intro ps
  induction ps with
  | nil =>
    intro _ store
    simp [runPosts]
  | cons p rest ih =>
    intro hv store
    have hp : validPosting p = true := hv p (List.mem_cons_self p rest)
    have hrest : ∀ q ∈ rest, validPosting q = true :=
      fun q hq => hv q (List.mem_cons_of_mem p hq)
    show netOf a (List.foldl postOne (postOne store p) rest) = _
    rw [show List.foldl postOne (postOne store p) rest =
        runPosts (postOne store p) rest from rfl]
    rw [ih hrest, postOne_of_valid hp, netOf_append, netOf_legs]
    simp [List.map_cons, List.sum_cons]
    ring

theorem account_balance_eq_entriesNet (l : List JournalEntry) :
    account_balance l = entriesNet l := by
  induction l with
  | nil => simp [account_balance, entriesNet]
  | cons e rest ih =>
    simp only [account_balance, entriesNet, entryNet, List.map_cons,
      List.sum_cons] at *
    linarith

theorem entriesNet_perm {l₁ l₂ : List JournalEntry} (h : l₁.Perm l₂) :
    entriesNet l₁ = entriesNet l₂ :=
  (h.map entryNet).sum_eq

theorem dateDescLE_trans :
    ∀ a b c : JournalEntry, dateDescLE a b → dateDescLE b c → dateDescLE a c := by
  intro a b c h1 h2
  simp only [dateDescLE, decide_eq_true_eq] at *
  exact le_trans h2 h1

theorem dateDescLE_total : ∀ a b : JournalEntry, dateDescLE a b || dateDescLE b a := by
  intro a b
  simp only [dateDescLE, Bool.or_eq_true, decide_eq_true_eq]
  exact le_total b.date a.date

/-- C2: for every successful post (the amount string parses and the
parsed value is positive), exactly two JournalEntry rows are appended —
a debit leg carrying category "Debit", the debit account, debit = amount
and credit = 0, followed by a credit leg carrying category "Credit", the
credit account, debit = 0 and credit = amount — and both rows share the
caller's description and the same timestamp string; no error is raised. -/
theorem add_transaction_appends_debit_and_credit_legs
    (st : AccountingState) (store : List JournalEntry) (current_date : String)
    (amt : ℚ) (hp : parseAmount st.amount = some amt) (hpos : 0 < amt) :
    (add_transaction st store current_date).store =
      store ++
        [⟨current_date, st.description, st.debit_account, "Debit", amt, 0⟩,
         ⟨current_date, st.description, st.credit_account, "Credit", 0, amt⟩] ∧
    (add_transaction st store current_date).error = none := by
  unfold add_transaction
  simp only [hp]
  rw [if_neg (not_le.mpr hpos)]
  exact ⟨rfl, rfl⟩

/-- Witness for C2: the §8 scenario posting of "100" from Cash to
Sales Revenue appends exactly its two legs to an empty store. -/
theorem add_transaction_appends_legs_witness :
    (add_transaction
        { description := "Sold Widget", amount := "100", debit_account := "Cash",
          credit_account := "Sales Revenue", entries := [] }
        [] "2024-01-01 10:00").store =
      [⟨"2024-01-01 10:00", "Sold Widget", "Cash", "Debit", 100, 0⟩,
       ⟨"2024-01-01 10:00", "Sold Widget", "Sales Revenue", "Credit", 0, 100⟩] ∧
    (add_transaction
        { description := "Sold Widget", amount := "100", debit_account := "Cash",
          credit_account := "Sales Revenue", entries := [] }
        [] "2024-01-01 10:00").error = none := by
  have h := add_transaction_appends_debit_and_credit_legs
    { description := "Sold Widget", amount := "100", debit_account := "Cash",
      credit_account := "Sales Revenue", entries := [] }
    [] "2024-01-01 10:00" 100
    (by simp +decide [parseAmount, digitsToNat] <;> norm_num) (by norm_num)
  simpa using h

/-- C4: posting fails with `invalidAmount` when the amount string does
not parse, and with `nonPositiveAmount` when the parsed amount is ≤ 0;
in both cases the entire result (session state, database contents) is
exactly as before the call, so zero rows are appended. -/
theorem add_transaction_error_leaves_store_unchanged
    (st : AccountingState) (store : List JournalEntry) (current_date : String) :
    (parseAmount st.amount = none →
      add_transaction st store current_date =
        { state := st, store := store, error := some PostError.invalidAmount }) ∧
    (∀ amt : ℚ, parseAmount st.amount = some amt → amt ≤ 0 →
      add_transaction st store current_date =
        { state := st, store := store, error := some PostError.nonPositiveAmount }) := by
  constructor
  · intro h
    unfold add_transaction
    simp only [h]
  · intro amt h hle
    unfold add_transaction
    simp only [h]
    rw [if_pos hle]

/-- Witness for C4: the §8 scenario inputs — amount "abc" yields
`invalidAmount` and amount "-5" yields `nonPositiveAmount`, both leaving
the (empty) store empty. -/
theorem add_transaction_error_witness :
    add_transaction
        { description := "x", amount := "abc", debit_account := "Cash",
          credit_account := "Sales Revenue", entries := [] } [] "2024-01-01 10:00" =
      ⟨{ description := "x", amount := "abc", debit_account := "Cash",
          credit_account := "Sales Revenue", entries := [] },
        [], some PostError.invalidAmount⟩ ∧
    add_transaction
        { description := "x", amount := "-5", debit_account := "Cash",
          credit_account := "Sales Revenue", entries := [] } [] "2024-01-01 10:00" =
      ⟨{ description := "x", amount := "-5", debit_account := "Cash",
          credit_account := "Sales Revenue", entries := [] },
        [], some PostError.nonPositiveAmount⟩ := by
  constructor
  · exact (add_transaction_error_leaves_store_unchanged _ _ _).1
      (by simp +decide [parseAmount, digitsToNat])
  · exact (add_transaction_error_leaves_store_unchanged _ _ _).2 (-5)
      (by simp +decide [parseAmount, digitsToNat] <;> norm_num) (by norm_num)

/-- C9: when a post fails (unparseable amount, or parsed amount ≤ 0) the
form fields keep their prior values; only a successful post resets the
description to "" and the amount to "0". -/
theorem add_transaction_form_reset_behavior
    (st : AccountingState) (store : List JournalEntry) (current_date : String) :
    (parseAmount st.amount = none →
      (add_transaction st store current_date).state.description = st.description ∧
      (add_transaction st store current_date).state.amount = st.amount) ∧
    (∀ amt : ℚ, parseAmount st.amount = some amt → amt ≤ 0 →
      (add_transaction st store current_date).state.description = st.description ∧
      (add_transaction st store current_date).state.amount = st.amount) ∧
    (∀ amt : ℚ, parseAmount st.amount = some amt → 0 < amt →
      (add_transaction st store current_date).state.description = "" ∧
      (add_transaction st store current_date).state.amount = "0") := by
  refine ⟨?_, ?_, ?_⟩
  · intro h
    unfold add_transaction
    simp [h]
  · intro amt h hle
    unfold add_transaction
    simp only [h]
    rw [if_pos hle]
    simp
  · intro amt h hpos
    unfold add_transaction
    simp only [h]
    rw [if_neg (not_le.mpr hpos)]
    simp

/-- Witness for C9: "abc" and "-5" leave the form untouched, "100"
resets it. -/
theorem add_transaction_form_reset_witness :
    ((add_transaction
        { description := "keep", amount := "abc", debit_account := "Cash",
          credit_account := "Sales Revenue", entries := [] }
        [] "2024-01-01 10:00").state.description = "keep" ∧
     (add_transaction
        { description := "keep", amount := "abc", debit_account := "Cash",
          credit_account := "Sales Revenue", entries := [] }
        [] "2024-01-01 10:00").state.amount = "abc") ∧
    ((add_transaction
        { description := "keep", amount := "-5", debit_account := "Cash",
          credit_account := "Sales Revenue", entries := [] }
        [] "2024-01-01 10:00").state.description = "keep" ∧
     (add_transaction
        { description := "keep", amount := "-5", debit_account := "Cash",
          credit_account := "Sales Revenue", entries := [] }
        [] "2024-01-01 10:00").state.amount = "-5") ∧
    ((add_transaction
        { description := "gone", amount := "100", debit_account := "Cash",
          credit_account := "Sales Revenue", entries := [] }
        [] "2024-01-01 10:00").state.description = "" ∧
     (add_transaction
        { description := "gone", amount := "100", debit_account := "Cash",
          credit_account := "Sales Revenue", entries := [] }
        [] "2024-01-01 10:00").state.amount = "0") := by
  refine ⟨?_, ?_, ?_⟩
  · exact (add_transaction_form_reset_behavior _ _ _).1
      (by simp +decide [parseAmount, digitsToNat])
  · exact (add_transaction_form_reset_behavior _ _ _).2.1 (-5)
      (by simp +decide [parseAmount, digitsToNat] <;> norm_num) (by norm_num)
  · exact (add_transaction_form_reset_behavior _ _ _).2.2 100
      (by simp +decide [parseAmount, digitsToNat] <;> norm_num) (by norm_num)

/-- C8: recomputing the trial balance against the same store contents,
with no postings in between, leaves rows and both totals identical —
the handler's output depends only on the store. -/
theorem calculate_trial_balance_idempotent (st : TrialBalanceState)
    (store : List JournalEntry) :
    (calculate_trial_balance_update (calculate_trial_balance_update st store)
        store).rows = (calculate_trial_balance_update st store).rows ∧
    (calculate_trial_balance_update (calculate_trial_balance_update st store)
        store).total_dr = (calculate_trial_balance_update st store).total_dr ∧
    (calculate_trial_balance_update (calculate_trial_balance_update st store)
        store).total_cr = (calculate_trial_balance_update st store).total_cr :=
  ⟨rfl, rfl, rfl⟩

/-- C10: after `get_accounts`, the available list is the distinct
account list; the selection is replaced by that list's first element
exactly when the list is non-empty and the prior selection is absent
from it; and in every case the ledger entries are reloaded for the
resulting selection. -/
theorem get_accounts_selection_and_reload (st : LedgerState)
    (store : List JournalEntry) :
    (get_accounts st store).available_accounts = distinctAccounts store ∧
    (get_accounts st store).selected_account =
      (if distinctAccounts store ≠ [] ∧ st.selected_account ∉ distinctAccounts store
        then (distinctAccounts store).headD st.selected_account
        else st.selected_account) ∧
    (get_accounts st store).ledger_entries =
      get_ledger_entries (get_accounts st store).selected_account store := by
  unfold get_accounts
  cases h : distinctAccounts store with
  | nil => simp [h]
  | cons a rest =>
    by_cases h2 : st.selected_account ∈ a :: rest
    · simp [h, h2]
    · simp [h, h2]

/-- C3: the aggregator computes each account's net as the sum of
(debit − credit) over that account's entries in a single pass (the keys
of the account map are the distinct accounts, and every map entry
carries exactly that net); it emits a row exactly for accounts with
abs(net) ≥ 0.01, carrying (net, 0) when net > 0 and (0, abs net) when
net < 0 (so a net of exactly 0.005 is suppressed, as `emitRow` drops
it); the totals sum the emitted rows' columns; and on an empty entry
set it returns zero rows, zero totals, and balanced = true. -/
theorem calculate_trial_balance_spec (entries : List JournalEntry) :
    ((account_map entries).map Prod.fst = distinctAccounts entries) ∧
    (∀ p ∈ account_map entries, p.2 = netOf p.1 entries) ∧
    ((calculate_trial_balance entries).1 =
      (account_map entries).filterMap emitRow) ∧
    ((calculate_trial_balance entries).2.1 =
      (((account_map entries).filterMap emitRow).map
        (fun r => r.debit_balance)).sum) ∧
    ((calculate_trial_balance entries).2.2 =
      (((account_map entries).filterMap emitRow).map
        (fun r => r.credit_balance)).sum) ∧
    (calculate_trial_balance [] = ([], 0, 0) ∧ is_balanced 0 0 = true) := by
  refine ⟨account_map_keys entries, account_map_mem_net entries, ?_, ?_, ?_, ?_, ?_⟩
  · rw [calculate_trial_balance_eq]
  · rw [calculate_trial_balance_eq]
  · rw [calculate_trial_balance_eq]
  · simp [calculate_trial_balance, account_map]
  · simp only [is_balanced]
    norm_num

/-- Witness for C3: a single account netting exactly 0.005 has that net
in the account map yet is suppressed from the emitted rows. -/
theorem calculate_trial_balance_spec_witness :
    ((1 : ℚ)/200 =
      netOf "Tiny" [⟨"2024-01-01 10:00", "t", "Tiny", "Debit", 1/200, 0⟩]) ∧
    (calculate_trial_balance
      [⟨"2024-01-01 10:00", "t", "Tiny", "Debit", 1/200, 0⟩]).1 = [] := by
  constructor
  · have h := (calculate_trial_balance_spec
      [⟨"2024-01-01 10:00", "t", "Tiny", "Debit", 1/200, 0⟩]).2.1
      ("Tiny", 1/200) (by norm_num [account_map, addToMap])
    simpa using h
  · rw [(calculate_trial_balance_spec
      [⟨"2024-01-01 10:00", "t", "Tiny", "Debit", 1/200, 0⟩]).2.2.1]
    norm_num +decide [account_map, addToMap, emitRow, abs]

/-- C5: the net balance of the ledger view of account `a` (sum of
debits minus credits over `a`'s entries) equals the signed sum of the
valid postings' amounts — +amount where `a` was the debit account,
−amount where it was the credit account. -/
theorem account_balance_eq_posting_contributions (a : String) (ps : List Posting)
    (hv : ∀ p ∈ ps, validPosting p = true) :
    account_balance (get_ledger_entries a (runPosts [] ps)) =
      (ps.map (fun p => postingSignedAmount p a)).sum := by
  rw [account_balance_eq_entriesNet]
  unfold get_ledger_entries
  rw [entriesNet_perm (List.mergeSort_perm _ dateDescLE)]
  rw [show entriesNet ((runPosts [] ps).filter (fun e => e.account == a)) =
      netOf a (runPosts [] ps) from rfl]
  rw [netOf_runPosts a ps hv []]
  rw [netOf_nil]
  ring

/-- Witness for C5: the §8 scenario — two postings of 50 into Cash and
one of 30 out of Cash leave Cash with a net balance of 70. -/
theorem account_balance_contributions_witness :
    account_balance (get_ledger_entries "Cash"
      (runPosts []
        [⟨"loan a", "50", "Cash", "Bank Loan", "2024-01-01 10:00"⟩,
         ⟨"loan b", "50", "Cash", "Bank Loan", "2024-01-01 10:01"⟩,
         ⟨"buy", "30", "Supplies", "Cash", "2024-01-01 10:02"⟩])) = 70 := by
  have h := account_balance_eq_posting_contributions "Cash"
    [⟨"loan a", "50", "Cash", "Bank Loan", "2024-01-01 10:00"⟩,
     ⟨"loan b", "50", "Cash", "Bank Loan", "2024-01-01 10:01"⟩,
     ⟨"buy", "30", "Supplies", "Cash", "2024-01-01 10:02"⟩]
    (by simp +decide [validPosting, parseAmount, digitsToNat] <;> norm_num)
  rw [h]
  simp +decide [postingSignedAmount, amtOf, parseAmount, digitsToNat] <;> norm_num

/-- C7: every row ever stored by a run of the poster (starting from the
empty store) has a non-negative debit that is nonzero only on rows of
category "Debit", and a non-negative credit that is nonzero only on
rows of category "Credit". -/
theorem journal_rows_satisfy_category_invariant (ps : List Posting) :
    ∀ e ∈ runPosts [] ps, entryInvariant e := by
  have main : ∀ (qs : List Posting) (store : List JournalEntry),
      (∀ e ∈ store, entryInvariant e) →
      ∀ e ∈ runPosts store qs, entryInvariant e := by
    intro qs
    induction qs with
    | nil =>
      intro store hs e he
      exact hs e (by simpa [runPosts] using he)
    | cons p rest ih =>
      intro store hs e he
      have hstep : ∀ x ∈ postOne store p, entryInvariant x := by
        cases hv : validPosting p
        · rw [postOne_of_invalid hv]
          exact hs
        · rw [postOne_of_valid hv]
          intro x hx
          have hamt : 0 < amtOf p := by
            unfold validPosting at hv
            cases hp : parseAmount p.amount with
            | none =>
              rw [hp] at hv
              simp at hv
            | some amt =>
              rw [hp] at hv
              simp only [decide_eq_true_eq] at hv
              simpa [amtOf, hp] using hv
          rcases List.mem_append.mp hx with hx | hx
          · exact hs x hx
          · rcases List.mem_cons.mp hx with hx | hx
            · subst hx
              exact ⟨le_of_lt hamt, fun _ => rfl, le_refl 0,
                fun hc => absurd rfl hc⟩
            · have hx2 : x = creditLeg p := by simpa using hx
              subst hx2
              exact ⟨le_refl 0, fun hc => absurd rfl hc, le_of_lt hamt,
                fun _ => rfl⟩
      have he2 : e ∈ runPosts (postOne store p) rest := by
        simpa [runPosts] using he
      exact ih (postOne store p) hstep e he2
  intro e he
  exact main ps [] (by simp) e he

/-- Witness for C7: the debit leg written by posting "100" from Cash to
Sales Revenue satisfies the row invariant. -/
theorem journal_rows_invariant_witness :
    entryInvariant ⟨"2024-01-01 10:00", "Sold Widget", "Cash", "Debit", 100, 0⟩ := by
  apply journal_rows_satisfy_category_invariant
    [⟨"Sold Widget", "100", "Cash", "Sales Revenue", "2024-01-01 10:00"⟩]
  have h : runPosts []
      [⟨"Sold Widget", "100", "Cash", "Sales Revenue", "2024-01-01 10:00"⟩] =
      [⟨"2024-01-01 10:00", "Sold Widget", "Cash", "Debit", 100, 0⟩,
       ⟨"2024-01-01 10:00", "Sold Widget", "Sales Revenue", "Credit", 0, 100⟩] := by
    simp +decide [runPosts, postOne, add_transaction, parseAmount, digitsToNat,
      load_entries] <;> norm_num
  rw [h]
  simp

/-- C1 counterexample: three valid postings of 0.005 ("Petty A/B/C"
each into "Clearing") leave every debit account's net below the 0.01
suppression threshold while "Clearing" nets −0.015, so the computed
totals are 0 and 0.015: `totalDebit ≠ totalCredit` and
`balanced = false`, refuting the claim for this sequence of valid
postings. -/
theorem suppression_can_unbalance_trial_balance :
    (∀ p ∈ suppressedPosts, validPosting p = true) ∧
    (calculate_trial_balance (runPosts [] suppressedPosts)).2.1 ≠
      (calculate_trial_balance (runPosts [] suppressedPosts)).2.2 ∧
    is_balanced (calculate_trial_balance (runPosts [] suppressedPosts)).2.1
      (calculate_trial_balance (runPosts [] suppressedPosts)).2.2 = false := by
  have hrun : calculate_trial_balance (runPosts [] suppressedPosts) =
      ([⟨"Clearing", 0, 3/200⟩], 0, 3/200) := by
    simp +decide [suppressedPosts, calculate_trial_balance, runPosts, postOne,
      add_transaction, parseAmount, digitsToNat, account_map, addToMap, tbStep,
      load_entries] <;>
      norm_num +decide [addToMap, tbStep, abs] <;> norm_num +decide [tbStep, abs]
  refine ⟨?_, ?_, ?_⟩
  · simp +decide [suppressedPosts, validPosting, parseAmount, digitsToNat] <;>
      norm_num
  · rw [hrun]
    norm_num
  · rw [hrun]
    simp only [is_balanced, decide_eq_false_iff_not, not_lt]
    rw [abs_of_nonpos (by norm_num)]
    norm_num

/-- C1 as amended: for any sequence of valid postings in which no
account's net balance is suppressed (each net is 0 or at least 0.01 in
absolute value), the trial balance returns equal totals and
`balanced = true`. -/
theorem trial_balance_balanced_without_suppressed_nets (ps : List Posting)
    (hv : ∀ p ∈ ps, validPosting p = true)
    (hnet : ∀ q ∈ account_map (runPosts [] ps), q.2 = 0 ∨ 1/100 ≤ |q.2|) :
    (calculate_trial_balance (runPosts [] ps)).2.1 =
      (calculate_trial_balance (runPosts [] ps)).2.2 ∧
    is_balanced (calculate_trial_balance (runPosts [] ps)).2.1
      (calculate_trial_balance (runPosts [] ps)).2.2 = true := by
  have hdiff : (calculate_trial_balance (runPosts [] ps)).2.1 -
      (calculate_trial_balance (runPosts [] ps)).2.2 = 0 := by
    rw [calculate_trial_balance_eq]
    rw [show ((((account_map (runPosts [] ps)).filterMap emitRow,
        (((account_map (runPosts [] ps)).filterMap emitRow).map
          (fun r => r.debit_balance)).sum,
        (((account_map (runPosts [] ps)).filterMap emitRow).map
          (fun r => r.credit_balance)).sum) :
          List TrialBalanceRow × ℚ × ℚ).2.1) =
        (((account_map (runPosts [] ps)).filterMap emitRow).map
          (fun r => r.debit_balance)).sum from rfl]
    rw [show ((((account_map (runPosts [] ps)).filterMap emitRow,
        (((account_map (runPosts [] ps)).filterMap emitRow).map
          (fun r => r.debit_balance)).sum,
        (((account_map (runPosts [] ps)).filterMap emitRow).map
          (fun r => r.credit_balance)).sum) :
          List TrialBalanceRow × ℚ × ℚ).2.2) =
        (((account_map (runPosts [] ps)).filterMap emitRow).map
          (fun r => r.credit_balance)).sum from rfl]
    rw [tb_totals_sub]
    have hcong : (account_map (runPosts [] ps)).map
        (fun p => if |p.2| < 1/100 then 0 else p.2) =
        (account_map (runPosts [] ps)).map Prod.snd := by
      apply List.map_congr_left
      intro q hq
      rcases hnet q hq with h | h
      · rw [h]
        simp
      · rw [if_neg (not_lt.mpr h)]
    rw [hcong, account_map_snd_sum, entriesNet_runPosts]
    simp [entriesNet]
  have heq : (calculate_trial_balance (runPosts [] ps)).2.1 =
      (calculate_trial_balance (runPosts [] ps)).2.2 := by
    linarith [hdiff]
  refine ⟨heq, ?_⟩
  simp only [is_balanced, decide_eq_true_eq]
  rw [heq]
  norm_num

/-- Witness for C1 (amended): a single posting of 100 from Cash to
Sales Revenue nets ±100 on both accounts, nothing is suppressed, and
the trial balance is balanced. -/
theorem trial_balance_balanced_witness :
    (calculate_trial_balance (runPosts []
      [⟨"Sold Widget", "100", "Cash", "Sales Revenue", "2024-01-01 10:00"⟩])).2.1 =
    (calculate_trial_balance (runPosts []
      [⟨"Sold Widget", "100", "Cash", "Sales Revenue", "2024-01-01 10:00"⟩])).2.2 ∧
    is_balanced
      (calculate_trial_balance (runPosts []
        [⟨"Sold Widget", "100", "Cash", "Sales Revenue", "2024-01-01 10:00"⟩])).2.1
      (calculate_trial_balance (runPosts []
        [⟨"Sold Widget", "100", "Cash", "Sales Revenue", "2024-01-01 10:00"⟩])).2.2 =
      true := by
  apply trial_balance_balanced_without_suppressed_nets
  · simp +decide [validPosting, parseAmount, digitsToNat] <;> norm_num
  · have hm : account_map (runPosts []
        [⟨"Sold Widget", "100", "Cash", "Sales Revenue", "2024-01-01 10:00"⟩]) =
        [("Cash", 100), ("Sales Revenue", -100)] := by
      simp +decide [runPosts, postOne, add_transaction, parseAmount, digitsToNat,
        account_map, addToMap, load_entries] <;>
        norm_num +decide [addToMap] <;> norm_num +decide [addToMap]
    rw [hm]
    intro q hq
    rcases List.mem_cons.mp hq with h | h
    · subst h
      right
      rw [abs_of_nonneg (by norm_num)]
      norm_num
    · have h2 : q = ("Sales Revenue", -100) := by simpa using h
      subst h2
      right
      rw [abs_of_nonpos (by norm_num)]
      norm_num

/-- C6 counterexample: two entries for "Cash" share the same date
string; the ledger query returns them in insertion order
(first-inserted first), not reversed as the claim states — a stable
sort never swaps equal keys. -/
theorem ledger_equal_date_ties_keep_insertion_order :
    get_ledger_entries "Cash" [tieEntryFirst, tieEntrySecond] =
      [tieEntryFirst, tieEntrySecond] ∧
    ([tieEntryFirst, tieEntrySecond] : List JournalEntry) ≠
      [tieEntrySecond, tieEntryFirst] := by
  constructor
  · unfold get_ledger_entries
    rw [show ([tieEntryFirst, tieEntrySecond].filter
        (fun e => e.account == "Cash")) = [tieEntryFirst, tieEntrySecond] from by
      simp [tieEntryFirst, tieEntrySecond]]
    apply List.mergeSort_of_sorted
    simp [tieEntryFirst, tieEntrySecond, dateDescLE]
  · intro h
    have h1 : tieEntryFirst = tieEntrySecond :=
      (List.cons.injEq tieEntryFirst [tieEntrySecond] tieEntrySecond
        [tieEntryFirst]).mp h |>.1
    have h2 : tieEntryFirst.description = tieEntrySecond.description :=
      congrArg JournalEntry.description h1
    simp [tieEntryFirst, tieEntrySecond] at h2

/-- C6 as amended: the ledger query returns exactly the stored entries
of the requested account (as a permutation of the filter), sorted by
date descending, and entries with equal date keep their insertion
order — for every date, the equal-date entries of the result are
exactly the account's entries of that date in store order. -/
theorem get_ledger_entries_filter_sorted_stable (a : String)
    (store : List JournalEntry) :
    (get_ledger_entries a store).Perm
        (store.filter (fun e => e.account == a)) ∧
    (get_ledger_entries a store).Pairwise (fun e f => f.date ≤ e.date) ∧
    ∀ d : String,
      (get_ledger_entries a store).filter (fun e => e.date == d) =
        store.filter (fun e => e.account == a && e.date == d) := by
  refine ⟨List.mergeSort_perm _ _, ?_, ?_⟩
  · unfold get_ledger_entries
    have h := List.sorted_mergeSort dateDescLE_trans dateDescLE_total
      (store.filter (fun e => e.account == a))
    exact h.imp (fun hab => by simpa [dateDescLE] using hab)
  · intro d
    unfold get_ledger_entries
    have hc : (store.filter (fun e => e.account == a)).filter
        (fun e => e.date == d) =
        store.filter (fun e => e.account == a && e.date == d) := by
      rw [List.filter_filter]
      apply List.filter_congr
      intro x _
      exact Bool.and_comm (x.date == d) (x.account == a)
    have hmem : ∀ e ∈ (store.filter (fun e => e.account == a)).filter
        (fun e => e.date == d), e.date = d := by
      intro e he
      have h2 := List.of_mem_filter he
      simpa using h2
    have hpair : ((store.filter (fun e => e.account == a)).filter
        (fun e => e.date == d)).Pairwise (fun x y => dateDescLE x y = true) := by
      apply List.pairwise_of_forall_mem_list
      intro x hx y hy
      simp [dateDescLE, hmem x hx, hmem y hy]
    have hsub : List.Sublist
        ((store.filter (fun e => e.account == a)).filter
          (fun e => e.date == d))
        ((store.filter (fun e => e.account == a)).mergeSort dateDescLE) :=
      List.sublist_mergeSort dateDescLE_trans dateDescLE_total hpair
        (List.filter_sublist _)
    have hsub2 : List.Sublist
        ((store.filter (fun e => e.account == a)).filter
          (fun e => e.date == d))
        (((store.filter (fun e => e.account == a)).mergeSort
          dateDescLE).filter (fun e => e.date == d)) := by
      have h2 := hsub.filter (fun e => e.date == d)
      rwa [List.filter_filter,
        show (fun (e : JournalEntry) => ((e.date == d) && (e.date == d))) =
          (fun e => e.date == d) from by
          funext e
          exact Bool.and_self _] at h2
    have hlen : ((store.filter (fun e => e.account == a)).filter
        (fun e => e.date == d)).length =
        (((store.filter (fun e => e.account == a)).mergeSort
          dateDescLE).filter (fun e => e.date == d)).length :=
      (((List.mergeSort_perm (store.filter (fun e => e.account == a))
        dateDescLE).filter _).length_eq).symm
    have heq := hsub2.eq_of_length hlen
    rw [← heq]
    exact hc
